import Mathlib

/-!
Verification development for the entity-checker analyzer core: a shallow
embedding of the ontology-driven type resolver, entity merger, confidence
scorer, organization resolver and suggestion engine, together with theorems
settling the behavioural claims about them.

Python floats are modelled as exact rationals, dictionaries as association
lists, sets as lists queried only through membership, and in-place mutation
as explicit state passing.  Code that can raise is modelled with Except.
-/

namespace EntityChecker

/-! ## Dynamic values

A property value or rule value: the scalar universe the analyzed claims
exercise (strings, numbers, booleans).  Python of course allows more, but
every claim-relevant code path only distinguishes strings from non-strings
and truthy from falsy values. -/

inductive Value where
  | str (s : String)
  | num (n : Int)
  | boolV (b : Bool)
deriving DecidableEq, Repr

/-- Python dict lookup `props.get(key)` on an association list. -/
def pyGet (props : List (String × Value)) (key : String) : Option Value :=
  (props.find? (fun p => decide (p.1 = key))).map (fun p => p.2)

/-- Python truthiness of a value: empty string, zero and False are falsy. -/
def truthy : Value → Bool
  | .str s => decide (s ≠ "")
  | .num n => decide (n ≠ 0)
  | .boolV b => b

/-- Python truthiness of `props.get(key)`: None (absent key) is falsy. -/
def truthyOpt : Option Value → Bool
  | none => false
  | some v => truthy v

/-- Python `str.lower()` as a total function on strings (character map). -/
def strToLower (s : String) : String :=
  (s.toList.map Char.toLower).asString

/-- Python `value.lower()`: succeeds only on strings, raises otherwise
(modelling the AttributeError raised on e.g. an int). -/
def pyLower : Value → Except Unit String
  | .str s => .ok (strToLower s)
  | _ => .error ()

/-! ## OntologyGraph and TypeResolver (type_resolver.py, schemaorg_loader.py)

The graph maps a type name to its directly declared subclasses, as built by
`load_schemaorg_ontology`; absence of a key means no declared subclasses.
The graph contents live in a data file outside the analyzed sources, so the
resolver is parameterized over an arbitrary graph. -/

abbrev SchemaGraph := List (String × List String)

/-- Python `SCHEMA_GRAPH.get(schema_type, set())`. -/
def childrenOf (graph : SchemaGraph) (schema_type : String) : List String :=
  ((graph.find? (fun p => decide (p.1 = schema_type))).map (fun p => p.2)).getD []

/-- `resolve_types`: `{schema_type} | SCHEMA_GRAPH.get(schema_type, set())`
(the set is modelled as a list queried through membership). -/
def resolve_types (graph : SchemaGraph) (schema_type : String) : List String :=
  schema_type :: childrenOf graph schema_type

/-- `is_subclass(schema_type, parent)`: `parent in resolve_types(schema_type)`. -/
def is_subclass (graph : SchemaGraph) (schema_type parent : String) : Bool :=
  decide (parent ∈ resolve_types graph schema_type)

/-! ## Entity records (models/entity.py)

`raw` is omitted: none of the analyzed components ever reads it. -/

structure NormalizedEntity where
  type : String
  properties : List (String × Value)
  source : String
  confidence : ℚ
  resolved_types : List String
deriving DecidableEq, Repr

/-! ## EntityMerger (entity_merger.py) -/

/-- `_identity_key`: `(entity.type, props.get("name","").lower(),
props.get("url","").lower())`; raises when a present name or url value is
not a string. -/
def identityKey (e : NormalizedEntity) : Except Unit (String × String × String) :=
  match pyLower ((pyGet e.properties "name").getD (.str "")) with
  | .error u => .error u
  | .ok n =>
    match pyLower ((pyGet e.properties "url").getD (.str "")) with
    | .error u => .error u
    | .ok u => .ok (e.type, n, u)

/-- The bucketing loop `for e in entities: buckets[_identity_key(e)].append(e)`:
computes each key in order, propagating the first raised error. -/
def keyEntities :
    List NormalizedEntity → Except Unit (List ((String × String × String) × NormalizedEntity))
  | [] => .ok []
  | e :: es =>
    match identityKey e with
    | .error u => .error u
    | .ok k =>
      match keyEntities es with
      | .error u => .error u
      | .ok rest => .ok ((k, e) :: rest)

/-- Bucket keys in order of first insertion (Python dicts preserve it). -/
def keyOrderAux (seen : List (String × String × String)) :
    List (String × String × String) → List (String × String × String)
  | [] => []
  | k :: ks => if k ∈ seen then keyOrderAux seen ks else k :: keyOrderAux (k :: seen) ks

/-- Python `max(group, key=lambda x: x.confidence)`: keeps the first-seen
element among ties, replacing only on a strictly larger key. -/
def maxByConfidence (acc : NormalizedEntity) : List NormalizedEntity → NormalizedEntity
  | [] => acc
  | e :: rest => maxByConfidence (if e.confidence > acc.confidence then e else acc) rest

/-- Lexicographic comparison of char lists (Python string `<`). -/
def charListLt : List Char → List Char → Bool
  | [], [] => false
  | [], _ :: _ => true
  | _ :: _, [] => false
  | a :: as, b :: bs => if a < b then true else if b < a then false else charListLt as bs

def strLeB (a b : String) : Bool := !(charListLt b.toList a.toList)

/-- One insertion step of a stable ascending sort. -/
def insertSorted (x : String) : List String → List String
  | [] => [x]
  | y :: ys => if strLeB x y then x :: y :: ys else y :: insertSorted x ys

/-- Python `sorted` on strings (ascending lexicographic order). -/
def sortStrings : List String → List String
  | [] => []
  | x :: xs => insertSorted x (sortStrings xs)

/-- Python `",".join(parts)`. -/
def joinComma (parts : List String) : String :=
  (List.intercalate [','] (parts.map String.toList)).asString

/-- The per-group body of `merge_entities`: survivor is the maximum-confidence
member; its source becomes the sorted de-duplicated comma-join of the group
sources; a group with more than one member gets a +0.1 confidence boost
clamped to 1.0.  (The empty case never arises from the bucketing.) -/
def mergeGroup (group : List NormalizedEntity) : NormalizedEntity :=
  match group with
  | [] => ⟨ "", [], "", 0, [] ⟩
  | g :: gs =>
    let primary := maxByConfidence g gs
    let withSrc :=
      { primary with source := joinComma (sortStrings ((g :: gs).map (fun e => e.source)).dedup) }
    if (g :: gs).length > 1 then
      { withSrc with confidence := min (withSrc.confidence + 1/10) 1 }
    else
      withSrc

/-- `merge_entities`: bucket by identity key, merge each bucket, return the
survivors in first-insertion key order.  A key-computation error anywhere
aborts the whole call (the Python exception propagates). -/
def merge_entities (entities : List NormalizedEntity) : Except Unit (List NormalizedEntity) :=
  match keyEntities entities with
  | .error u => .error u
  | .ok kes =>
    .ok ((keyOrderAux [] (kes.map (fun p => p.1))).map
      (fun k => mergeGroup ((kes.filter (fun p => decide (p.1 = k))).map (fun p => p.2))))

/-- The merge stage of `orchestor.analyze_html`:
`try: entities = merge_entities(entities) or [] except Exception: entities = []`.
A raised exception replaces the whole batch with the empty list. -/
def mergeStage (entities : List NormalizedEntity) : List NormalizedEntity :=
  match merge_entities entities with
  | .ok merged => merged
  | .error _ => []

/-! ## ConfidenceScorer (confidence.py) -/

/-- Round-half-to-even on rationals (Python `round` tie behaviour). -/
def roundHalfEven (q : ℚ) : ℤ :=
  let f := ⌊q⌋
  if q - f < 1/2 then f
  else if 1/2 < q - f then f + 1
  else if f % 2 = 0 then f else f + 1

/-- Python `round(q, 2)` modelled on exact rationals. -/
def pyRound2 (q : ℚ) : ℚ :=
  (roundHalfEven (q * 100) : ℚ) / 100

/-- `enrich_confidence(entity, source_count=1)`: truthy name/url/sameAs/logo
properties add 0.05/0.05/0.05/0.03, a source count above 1 adds 0.1; the
score is clamped to 1.0, rounded to 2 decimals, and written back into the
confidence field (in-place mutation modelled by returning the updated
record). -/
def enrich_confidence (entity : NormalizedEntity) (source_count : Int) : NormalizedEntity :=
  let props := entity.properties
  let score0 := entity.confidence
  let score1 := if truthyOpt (pyGet props "name") then score0 + 5/100 else score0
  let score2 := if truthyOpt (pyGet props "url") then score1 + 5/100 else score1
  let score3 := if truthyOpt (pyGet props "sameAs") then score2 + 5/100 else score2
  let score4 := if truthyOpt (pyGet props "logo") then score3 + 3/100 else score3
  let score5 := if source_count > 1 then score4 + 1/10 else score4
  { entity with confidence := pyRound2 (min score5 1) }

/-! ## OrganizationResolver (organization.py) -/

/-- The projection dict returned by `resolve_organization`. -/
structure OrgProjection where
  type : String
  properties : List (String × Value)
  confidence : ℚ
  source : String
deriving DecidableEq, Repr

/-- `resolve_organization`: filter to entities whose type subclass-matches
Organization, return None when there is no candidate, else project the
first maximum-confidence candidate. -/
def resolve_organization (graph : SchemaGraph) (entities : List NormalizedEntity)
    (page_url : Option String) : Option OrgProjection :=
  match entities.filter (fun e => is_subclass graph e.type "Organization") with
  | [] => none
  | c :: cs =>
    let best := maxByConfidence c cs
    some ⟨ best.type, best.properties, best.confidence, best.source ⟩

/-! ## SuggestionEngine (suggestion_engine.py) -/

/-- A node of the signals bag: nested dictionaries with scalar leaves. -/
inductive SigVal where
  | leaf (v : Value)
  | node (entries : List (String × SigVal))

/-- Dict lookup inside the signals bag. -/
def sigDictGet (entries : List (String × SigVal)) (key : String) : Option SigVal :=
  (entries.find? (fun p => decide (p.1 = key))).map (fun p => p.2)

/-- The loop of `_get_signal_value`: walk the dotted path; a non-dict
intermediate value or a missing key yields None. -/
def getSignalPath : SigVal → List String → Option SigVal
  | v, [] => some v
  | .node entries, part :: rest =>
    match sigDictGet entries part with
    | none => none
    | some v => getSignalPath v rest
  | .leaf _, _ :: _ => none

/-- Python `key.replace("signal.", "")` on char lists, with fuel for
structural recursion (non-overlapping left-to-right occurrence removal). -/
def stripMarker (pat : List Char) : Nat → List Char → List Char
  | 0, l => l
  | _ + 1, [] => []
  | n + 1, c :: cs =>
    if pat.isPrefixOf (c :: cs) then stripMarker pat n ((c :: cs).drop pat.length)
    else c :: stripMarker pat n cs

/-- Python `s.split(".")`. -/
def splitOnDot : List Char → List (List Char)
  | [] => [[]]
  | c :: cs =>
    if c = '.' then [] :: splitOnDot cs
    else
      match splitOnDot cs with
      | [] => [[c]]
      | h :: t => (c :: h) :: t

/-- `key.replace("signal.", "").split(".")`. -/
def parsePath (key : String) : List String :=
  (splitOnDot (stripMarker ("signal.".toList) key.toList.length key.toList)).map
    (fun l => l.asString)

/-- `_get_signal_value(signals, key)`. -/
def get_signal_value (signals : List (String × SigVal)) (key : String) : Option SigVal :=
  getSignalPath (.node signals) (parsePath key)

/-- Python equality between the looked-up signal value and the rule value:
only a scalar leaf can equal a scalar; None and nested dicts never do. -/
def sigValueEq (actual : Option SigVal) (expected : Value) : Bool :=
  match actual with
  | some (.leaf v) => decide (v = expected)
  | _ => false

/-- A `missing_schema` comparison value tested against a present type:
`is_subclass(t, expected)` where a non-string expected value is never a
member of a set of strings. -/
def subclassMatchV (graph : SchemaGraph) (t : String) (expected : Value) : Bool :=
  match expected with
  | .str s => is_subclass graph t s
  | _ => false

/-- A declarative rule as loaded from the rule file, with the defaults
`rule.get` applies already resolved. -/
structure Rule where
  when : List (String × Value)
  suggest : String
  confidence : String
  category : String
  reason : String
deriving DecidableEq, Repr

/-- The condition loop of `_rule_matches`: each condition either fails the
rule (early False) or passes; an unrecognized condition key fails the rule
unconditionally; the empty condition list yields True. -/
def ruleMatchesLoop (graph : SchemaGraph) (present_types : List String)
    (signals : List (String × SigVal)) : List (String × Value) → Bool
  | [] => true
  | (key, expected) :: rest =>
    if key = "missing_schema" then
      if present_types.any (fun t => subclassMatchV graph t expected) then false
      else ruleMatchesLoop graph present_types signals rest
    else if key.startsWith "signal." then
      if !(sigValueEq (get_signal_value signals key) expected) then false
      else ruleMatchesLoop graph present_types signals rest
    else false

/-- `_rule_matches(rule, present_types, signals)`. -/
def ruleMatches (graph : SchemaGraph) (rule : Rule) (present_types : List String)
    (signals : List (String × SigVal)) : Bool :=
  ruleMatchesLoop graph present_types signals rule.when

/-- The embedded SCHEMA_SATISFACTION_RULES table: target type to the list of
any_of alternatives, each a set of required types. -/
def SCHEMA_SATISFACTION_RULES : List (String × List (List String)) :=
  [ ("FAQPage", [["Question", "Answer"]]),
    ("Question", [["FAQPage"]]),
    ("Answer", [["FAQPage"]]),
    ("Article", [["BlogPosting"], ["NewsArticle"]]),
    ("BlogPosting", [["Article"]]),
    ("NewsArticle", [["Article"]]),
    ("Product", [["Offer"], ["AggregateOffer"]]),
    ("Offer", [["Product"]]),
    ("AggregateOffer", [["Product"]]),
    ("Review", [["AggregateRating"]]),
    ("Rating", [["AggregateRating"]]),
    ("Organization", [["LocalBusiness"]]),
    ("LocalBusiness", [["Organization"]]),
    ("PostalAddress", [["LocalBusiness"], ["Organization"]]),
    ("GeoCoordinates", [["Place"], ["LocalBusiness"]]),
    ("VideoObject", [["Clip"]]),
    ("ImageObject", [["MediaObject"]]),
    ("BreadcrumbList", [["WebPage"], ["SiteNavigationElement"]]),
    ("WebPage", [["Article"], ["Product"], ["FAQPage"]]),
    ("WebSite", [["SearchAction"]]) ]

/-- `_is_schema_satisfied(target_schema, present_types)`: false without a
table entry; otherwise true iff some alternative set is fully covered, every
required member having a subclass-match among present types. -/
def isSchemaSatisfied (graph : SchemaGraph) (target_schema : String)
    (present_types : List String) : Bool :=
  match (SCHEMA_SATISFACTION_RULES.find? (fun p => decide (p.1 = target_schema))).map
      (fun p => p.2) with
  | none => false
  | some any_of =>
    any_of.any (fun required_set =>
      required_set.all (fun required =>
        present_types.any (fun t => is_subclass graph t required)))

/-- A produced suggestion record. -/
structure Suggestion where
  schema : String
  confidence : String
  category : String
  reason : String
  schema_url : String
deriving DecidableEq, Repr

/-- The suggestion record a matching rule emits. -/
def suggestionOfRule (rule : Rule) : Suggestion :=
  ⟨ rule.suggest, rule.confidence, rule.category, rule.reason,
    "https://schema.org/" ++ rule.suggest ⟩

/-- One iteration of the Layer-1 loop of `generate`: state is the emitted
suggestion list and the set of already-emitted schemas. -/
def layer1Step (graph : SchemaGraph) (present_types : List String)
    (signals : List (String × SigVal)) (acc : List Suggestion × List String)
    (rule : Rule) : List Suggestion × List String :=
  if !(ruleMatches graph rule present_types signals) then acc
  else
    let schema := rule.suggest
    if present_types.any (fun t => is_subclass graph t schema) then acc
    else if isSchemaSatisfied graph schema present_types then acc
    else if schema = "Review" && !(present_types.any (fun t => is_subclass graph t "Product")) then
      acc
    else if acc.2.contains schema then acc
    else (acc.1 ++ [suggestionOfRule rule], acc.2 ++ [schema])

/-- The whole Layer-1 rule pass of `generate`. -/
def layer1 (graph : SchemaGraph) (rules : List Rule) (present_types : List String)
    (signals : List (String × SigVal)) : List Suggestion × List String :=
  rules.foldl (layer1Step graph present_types signals) ([], [])

/-! ## Rounding lemmas -/

lemma roundHalfEven_ge_floor (q : ℚ) : ⌊q⌋ ≤ roundHalfEven q := by
  simp only [roundHalfEven]
  split_ifs <;> omega

lemma roundHalfEven_ge (q : ℚ) : q - 1/2 ≤ (roundHalfEven q : ℚ) := by
  simp only [roundHalfEven]
  split_ifs with h1 h2 h3
  · linarith
  · push_cast
    linarith [Int.lt_floor_add_one q]
  · linarith
  · push_cast
    linarith [Int.lt_floor_add_one q]

lemma roundHalfEven_le_of_le (q : ℚ) (n : ℤ) (h : q ≤ n) : roundHalfEven q ≤ n := by
  have hfn : ⌊q⌋ ≤ n := by
    have := Int.floor_le_floor h
    simpa using this
  simp only [roundHalfEven]
  split_ifs with h1 h2 h3
  · exact hfn
  · have hq : (⌊q⌋ : ℚ) < q := by linarith
    have hlt : (⌊q⌋ : ℚ) < (n : ℚ) := lt_of_lt_of_le hq h
    have : ⌊q⌋ < n := by exact_mod_cast hlt
    omega
  · exact hfn
  · have heq : q - (⌊q⌋ : ℚ) = 1/2 := le_antisymm (not_lt.1 h2) (not_lt.1 h1)
    have hq : (⌊q⌋ : ℚ) < q := by linarith
    have hlt : (⌊q⌋ : ℚ) < (n : ℚ) := lt_of_lt_of_le hq h
    have : ⌊q⌋ < n := by exact_mod_cast hlt
    omega

lemma pyRound2_ge (q : ℚ) : q - 1/200 ≤ pyRound2 q := by
  have h := roundHalfEven_ge (q * 100)
  unfold pyRound2
  linarith

lemma pyRound2_nonneg (q : ℚ) (h : 0 ≤ q) : 0 ≤ pyRound2 q := by
  have h1 : (0 : ℤ) ≤ ⌊q * 100⌋ := Int.floor_nonneg.mpr (by positivity)
  have h2 : (0 : ℤ) ≤ roundHalfEven (q * 100) := le_trans h1 (roundHalfEven_ge_floor _)
  unfold pyRound2
  exact div_nonneg (by exact_mod_cast h2) (by norm_num)

lemma pyRound2_le_one (q : ℚ) (h : q ≤ 1) : pyRound2 q ≤ 1 := by
  have h2 : roundHalfEven (q * 100) ≤ (100 : ℤ) :=
    roundHalfEven_le_of_le _ _ (by push_cast; linarith)
  unfold pyRound2
  rw [div_le_one (by norm_num)]
  exact_mod_cast h2

/-! ## Claim C1 -/

/-- Claim C1: for every type name t, resolve_types returns t together with
the graphs direct declared subclasses of t (empty child set when t is
unknown), hence contains t and is never empty; and is_subclass(t, c) holds
exactly when c equals t or c is a direct declared subclass of t — one
hierarchy level, no ancestor reachability. -/
theorem c1_resolve_types_one_hop (graph : SchemaGraph) (t : String) :
    t ∈ resolve_types graph t ∧
    resolve_types graph t ≠ [] ∧
    (graph.find? (fun p => decide (p.1 = t)) = none → resolve_types graph t = [t]) ∧
    (∀ c, is_subclass graph t c = true ↔ (c = t ∨ c ∈ childrenOf graph t)) := by
  refine ⟨List.mem_cons_self _ _, by simp [resolve_types], ?_, ?_⟩
  · intro h
    simp [resolve_types, childrenOf, h]
  · intro c
    simp [is_subclass, resolve_types, List.mem_cons]

/-- Witness for C1 at a concrete unknown type in the empty graph. -/
theorem c1_resolve_types_one_hop_witness : resolve_types [] "Product" = ["Product"] :=
  (c1_resolve_types_one_hop [] "Product").2.2.1 rfl

/-! ## Claim C2 -/

def goodRecord : NormalizedEntity :=
  ⟨ "Product", [("name", .str "Widget")], "jsonld", 9/10, [] ⟩

/-- A malformed record: its name property is a number, so `.lower()` raises. -/
def badRecord : NormalizedEntity :=
  ⟨ "Product", [("name", .num 42)], "microdata", 7/10, [] ⟩

/-- Claim C2 is violated by the code: one malformed record makes the whole
merge raise, and the orchestrator catch replaces the entire batch with [],
dropping the well-formed record too, instead of skipping only the malformed
one.  Alone, the well-formed record would have been returned. -/
theorem c2_malformed_record_drops_whole_batch :
    identityKey badRecord = .error () ∧
    mergeStage [goodRecord, badRecord] = [] ∧
    mergeStage [goodRecord] = [⟨ "Product", [("name", .str "Widget")], "jsonld", 9/10, [] ⟩] :=
  ⟨rfl, rfl, rfl⟩

/-! ## Claim C4 -/

def prodA : NormalizedEntity :=
  ⟨ "Product", [("name", .str "Acme")], "microdata", 6/10, [] ⟩

def prodB : NormalizedEntity :=
  ⟨ "Product", [("name", .str "Acme")], "jsonld", 8/10, [] ⟩

/-- Claim C4: merging two entities with identical identity keys and
confidences 0.6 and 0.8 yields one record with confidence
min(0.8 + 0.10, 1.0) = 0.90 and source the sorted de-duplicated
comma-joined union of both sources. -/
theorem c4_merge_pair_boost_and_sources :
    ∃ m, merge_entities [prodA, prodB] = .ok [m] ∧
      m.confidence = min ((8 : ℚ)/10 + 1/10) 1 ∧
      m.confidence = 9/10 ∧
      m.source = "jsonld,microdata" := by
  have hgt : prodB.confidence > prodA.confidence := by norm_num [prodA, prodB]
  have hmax : maxByConfidence prodA [prodB] = prodB := by
    simp [maxByConfidence, hgt]
  have hgrp : mergeGroup [prodA, prodB] = { maxByConfidence prodA [prodB] with source := "jsonld,microdata", confidence := min ((maxByConfidence prodA [prodB]).confidence + 1/10) 1 } := rfl
  rw [hmax] at hgrp
  have hme : merge_entities [prodA, prodB] = .ok [mergeGroup [prodA, prodB]] := rfl
  rw [hgrp] at hme
  refine ⟨_, hme, ?_, ?_, rfl⟩
  · norm_num [prodB]
  · show min (prodB.confidence + 1/10) 1 = 9/10
    norm_num [prodB]

/-! ## Claim C8 -/

def nameBoost (e : NormalizedEntity) : ℚ :=
  if truthyOpt (pyGet e.properties "name") then 5/100 else 0

def urlBoost (e : NormalizedEntity) : ℚ :=
  if truthyOpt (pyGet e.properties "url") then 5/100 else 0

def sameAsBoost (e : NormalizedEntity) : ℚ :=
  if truthyOpt (pyGet e.properties "sameAs") then 5/100 else 0

def logoBoost (e : NormalizedEntity) : ℚ :=
  if truthyOpt (pyGet e.properties "logo") then 3/100 else 0

def countBoost (source_count : Int) : ℚ :=
  if source_count > 1 then 1/10 else 0

lemma enrich_confidence_confidence (e : NormalizedEntity) (sc : Int) :
    (enrich_confidence e sc).confidence =
      pyRound2 (min (e.confidence + nameBoost e + urlBoost e + sameAsBoost e + logoBoost e
        + countBoost sc) 1) := by
  simp only [enrich_confidence, nameBoost, urlBoost, sameAsBoost, logoBoost, countBoost]
  split_ifs <;> ring_nf

def richEntity : NormalizedEntity :=
  ⟨ "Organization",
    [("name", .str "Acme"), ("url", .str "https://acme.test"),
     ("sameAs", .str "https://profiles.test/acme"), ("logo", .str "logo.png")],
    "jsonld", 6/10, [] ⟩

/-- Claim C8 (amended): enrichment starts from the confidence, adds +0.05
for a present-and-truthy name, url and sameAs, +0.03 for logo, +0.10 when
the source count exceeds 1, clamps to 1.0 and rounds to 2 decimals, writing
the result back into the confidence field and leaving every other field
unchanged; with name, url, sameAs and logo all present (non-empty), base
0.6 and source count 1 the result is 0.78. -/
theorem c8_enrich_confidence_formula :
    (∀ (e : NormalizedEntity) (sc : Int),
      (enrich_confidence e sc).confidence =
        pyRound2 (min (e.confidence + nameBoost e + urlBoost e + sameAsBoost e + logoBoost e
          + countBoost sc) 1) ∧
      (enrich_confidence e sc).type = e.type ∧
      (enrich_confidence e sc).properties = e.properties ∧
      (enrich_confidence e sc).source = e.source) ∧
    (enrich_confidence richEntity 1).confidence = 78/100 := by
  refine ⟨fun e sc => ⟨enrich_confidence_confidence e sc, rfl, rfl, rfl⟩, ?_⟩
  have h : (enrich_confidence richEntity 1).confidence =
      pyRound2 (min ((6 : ℚ)/10 + 5/100 + 5/100 + 5/100 + 3/100) 1) := rfl
  rw [h]
  norm_num [pyRound2, roundHalfEven, min_def]

def emptyNameEntity : NormalizedEntity :=
  ⟨ "Organization", [("name", .str "")], "jsonld", 6/10, [] ⟩

/-- Counterexample to C8 as stated: the name property is present (an empty
string), yet no +0.05 is added — the code tests truthiness, not presence —
so the result stays 0.6 instead of the claimed 0.65. -/
theorem c8_present_but_falsy_name_not_boosted :
    pyGet emptyNameEntity.properties "name" = some (.str "") ∧
    (enrich_confidence emptyNameEntity 1).confidence = 6/10 ∧
    (6/10 : ℚ) ≠ 65/100 := by
  refine ⟨rfl, ?_, by norm_num⟩
  have h : (enrich_confidence emptyNameEntity 1).confidence =
      pyRound2 (min ((6 : ℚ)/10) 1) := rfl
  rw [h]
  norm_num [pyRound2, roundHalfEven, min_def]

/-! ## Claim C5: counterexample -/

def midEntity : NormalizedEntity := ⟨ "Thing", [], "jsonld", 437/500, [] ⟩

/-- Counterexample to C5 as stated: an enrichment step (not a merge
reassignment) decreases a confidence of 0.874 to 0.87 through rounding. -/
theorem c5_enrichment_can_decrease_confidence :
    0 ≤ midEntity.confidence ∧ midEntity.confidence ≤ 1 ∧
    (enrich_confidence midEntity 1).confidence < midEntity.confidence := by
  refine ⟨by norm_num [midEntity], by norm_num [midEntity], ?_⟩
  have h : (enrich_confidence midEntity 1).confidence =
      pyRound2 (min ((437 : ℚ)/500) 1) := rfl
  rw [h]
  show pyRound2 (min ((437 : ℚ)/500) 1) < midEntity.confidence
  norm_num [pyRound2, roundHalfEven, min_def, midEntity]

/-! ## Merge machinery lemmas -/

lemma keyEntities_cons (e : NormalizedEntity) (es : List NormalizedEntity) (kes)
    (h : keyEntities (e :: es) = .ok kes) :
    ∃ k rest, identityKey e = .ok k ∧ keyEntities es = .ok rest ∧ kes = (k, e) :: rest := by
  simp only [keyEntities] at h
  split at h
  · simp at h
  · rename_i k hk
    split at h
    · simp at h
    · rename_i rest hrest
      exact ⟨k, rest, hk, hrest, by injection h with h2; exact h2.symm⟩

lemma keyEntities_snd : ∀ (es : List NormalizedEntity) (kes), keyEntities es = .ok kes →
    kes.map (fun p => p.2) = es := by
  intro es
  induction es with
  | nil =>
    intro kes h
    simp only [keyEntities] at h
    injection h with h2
    subst h2
    rfl
  | cons e rest ih =>
    intro kes h
    obtain ⟨k, krest, _, hrest, rfl⟩ := keyEntities_cons e rest kes h
    simp [ih krest hrest]

lemma keyEntities_length (es : List NormalizedEntity) (kes) (h : keyEntities es = .ok kes) :
    kes.length = es.length := by
  have h2 := keyEntities_snd es kes h
  calc kes.length = (kes.map (fun p => p.2)).length := (List.length_map _ _).symm
    _ = es.length := by rw [h2]

lemma keyEntities_key : ∀ (es : List NormalizedEntity) (kes), keyEntities es = .ok kes →
    ∀ p ∈ kes, identityKey p.2 = .ok p.1 := by
  intro es
  induction es with
  | nil =>
    intro kes h p hp
    simp only [keyEntities] at h
    injection h with h2
    subst h2
    simp at hp
  | cons e rest ih =>
    intro kes h p hp
    obtain ⟨k, krest, hk, hrest, rfl⟩ := keyEntities_cons e rest kes h
    rcases List.mem_cons.1 hp with rfl | hp2
    · exact hk
    · exact ih krest hrest p hp2

lemma keyOrderAux_subset (l : List (String × String × String)) :
    ∀ seen k, k ∈ keyOrderAux seen l → k ∈ l := by
  induction l with
  | nil =>
    intro seen k h
    simp [keyOrderAux] at h
  | cons a rest ih =>
    intro seen k h
    simp only [keyOrderAux] at h
    split at h
    · exact List.mem_cons_of_mem _ (ih _ _ h)
    · rcases List.mem_cons.1 h with rfl | h2
      · exact List.mem_cons_self _ _
      · exact List.mem_cons_of_mem _ (ih _ _ h2)

lemma keyOrderAux_length (l : List (String × String × String)) :
    ∀ seen, (keyOrderAux seen l).length ≤ l.length := by
  induction l with
  | nil => intro seen; simp [keyOrderAux]
  | cons a rest ih =>
    intro seen
    simp only [keyOrderAux]
    split
    · exact le_trans (ih seen) (Nat.le_succ _)
    · simpa using Nat.succ_le_succ (ih (a :: seen))

lemma keyOrderAux_not_seen (l : List (String × String × String)) :
    ∀ seen k, k ∈ keyOrderAux seen l → k ∉ seen := by
  induction l with
  | nil =>
    intro seen k h
    simp [keyOrderAux] at h
  | cons a rest ih =>
    intro seen k h
    simp only [keyOrderAux] at h
    split at h
    · exact ih seen k h
    · rename_i ha
      rcases List.mem_cons.1 h with rfl | h2
      · exact ha
      · intro hk
        exact ih (a :: seen) k h2 (List.mem_cons_of_mem _ hk)

lemma keyOrderAux_nodup (l : List (String × String × String)) :
    ∀ seen, (keyOrderAux seen l).Nodup := by
  induction l with
  | nil => intro seen; simp [keyOrderAux]
  | cons a rest ih =>
    intro seen
    simp only [keyOrderAux]
    split
    · exact ih seen
    · refine List.nodup_cons.2 ⟨?_, ih (a :: seen)⟩
      intro hmem
      exact keyOrderAux_not_seen rest (a :: seen) a hmem (List.mem_cons_self _ _)

lemma maxByConfidence_mem (l : List NormalizedEntity) :
    ∀ acc, maxByConfidence acc l ∈ acc :: l := by
  induction l with
  | nil => intro acc; simp [maxByConfidence]
  | cons e rest ih =>
    intro acc
    simp only [maxByConfidence]
    by_cases h : e.confidence > acc.confidence
    · rw [if_pos h]
      exact List.mem_cons_of_mem _ (ih e)
    · rw [if_neg h]
      rcases List.mem_cons.1 (ih acc) with h2 | h2
      · simp [h2]
      · exact List.mem_cons_of_mem _ (List.mem_cons_of_mem _ h2)

lemma maxByConfidence_ge (l : List NormalizedEntity) :
    ∀ acc, ∀ x ∈ acc :: l, x.confidence ≤ (maxByConfidence acc l).confidence := by
  induction l with
  | nil =>
    intro acc x hx
    rcases List.mem_cons.1 hx with rfl | h2
    · exact le_refl _
    · simp at h2
  | cons e rest ih =>
    intro acc x hx
    simp only [maxByConfidence]
    by_cases h : e.confidence > acc.confidence
    · rw [if_pos h]
      rcases List.mem_cons.1 hx with rfl | hx2
      · exact le_trans (le_of_lt h) (ih e e (List.mem_cons_self _ _))
      · exact ih e x hx2
    · rw [if_neg h]
      rcases List.mem_cons.1 hx with heq | hx2
      · rw [heq]
        exact ih acc acc (List.mem_cons_self _ _)
      · rcases List.mem_cons.1 hx2 with heq2 | hx3
        · rw [heq2]
          exact le_trans (not_lt.1 h) (ih acc acc (List.mem_cons_self _ _))
        · exact ih acc x (List.mem_cons_of_mem _ hx3)

lemma mergeGroup_confidence (g : NormalizedEntity) (gs : List NormalizedEntity) :
    (mergeGroup (g :: gs)).confidence =
      if (g :: gs).length > 1 then min ((maxByConfidence g gs).confidence + 1/10) 1
      else (maxByConfidence g gs).confidence := by
  by_cases h : 0 < gs.length <;> simp [mergeGroup, h]

lemma mergeGroup_type (g : NormalizedEntity) (gs : List NormalizedEntity) :
    (mergeGroup (g :: gs)).type = (maxByConfidence g gs).type := by
  by_cases h : 0 < gs.length <;> simp [mergeGroup, h]

lemma mergeGroup_properties (g : NormalizedEntity) (gs : List NormalizedEntity) :
    (mergeGroup (g :: gs)).properties = (maxByConfidence g gs).properties := by
  by_cases h : 0 < gs.length <;> simp [mergeGroup, h]

lemma identityKey_ext (e1 e2 : NormalizedEntity) (ht : e1.type = e2.type)
    (hp : e1.properties = e2.properties) : identityKey e1 = identityKey e2 := by
  unfold identityKey
  rw [ht, hp]

lemma mergeGroup_identityKey (g : NormalizedEntity) (gs : List NormalizedEntity) :
    identityKey (mergeGroup (g :: gs)) = identityKey (maxByConfidence g gs) :=
  identityKey_ext _ _ (mergeGroup_type g gs) (mergeGroup_properties g gs)

lemma merge_entities_ok (es out : List NormalizedEntity) (h : merge_entities es = .ok out) :
    ∃ kes, keyEntities es = .ok kes ∧
      out = (keyOrderAux [] (kes.map (fun p => p.1))).map
        (fun k => mergeGroup ((kes.filter (fun p => decide (p.1 = k))).map (fun p => p.2))) := by
  unfold merge_entities at h
  split at h
  · simp at h
  · rename_i kes hkes
    refine ⟨kes, hkes, ?_⟩
    injection h with h2
    exact h2.symm

lemma bucket_key_and_mem (es : List NormalizedEntity) (kes)
    (hkes : keyEntities es = .ok kes) (k) :
    ∀ x ∈ (kes.filter (fun p => decide (p.1 = k))).map (fun p => p.2),
      identityKey x = .ok k ∧ x ∈ es := by
  intro x hx
  obtain ⟨p, hp, rfl⟩ := List.mem_map.1 hx
  have hf := List.mem_filter.1 hp
  have hpk : p.1 = k := by simpa using hf.2
  constructor
  · rw [← hpk]
    exact keyEntities_key es kes hkes p hf.1
  · rw [← keyEntities_snd es kes hkes]
    exact List.mem_map_of_mem _ hf.1

lemma bucket_ne_nil (es : List NormalizedEntity) (kes)
    (hkes : keyEntities es = .ok kes) (k)
    (hk : k ∈ keyOrderAux [] (kes.map (fun p => p.1))) :
    (kes.filter (fun p => decide (p.1 = k))).map (fun p => p.2) ≠ [] := by
  have hk2 : k ∈ kes.map (fun p => p.1) := keyOrderAux_subset _ _ _ hk
  obtain ⟨p, hp, hpk⟩ := List.mem_map.1 hk2
  have hpf : p ∈ kes.filter (fun p => decide (p.1 = k)) :=
    List.mem_filter.2 ⟨hp, by simp [hpk]⟩
  intro hnil
  have hmem : p.2 ∈ (kes.filter (fun p => decide (p.1 = k))).map (fun p => p.2) :=
    List.mem_map_of_mem _ hpf
  rw [hnil] at hmem
  simp at hmem

/-! ## Claim C3 -/

/-- Claim C3: for every entity list on which the merge completes, the output
is at most as long as the input and the identity keys of the output records
are pairwise distinct. -/
theorem c3_merge_size_and_distinct_keys (es out : List NormalizedEntity)
    (h : merge_entities es = .ok out) :
    out.length ≤ es.length ∧ (out.map identityKey).Nodup := by
  obtain ⟨kes, hkes, rfl⟩ := merge_entities_ok es out h
  constructor
  · rw [List.length_map]
    calc (keyOrderAux [] (kes.map (fun p => p.1))).length
        ≤ (kes.map (fun p => p.1)).length := keyOrderAux_length _ _
      _ = kes.length := List.length_map _ _
      _ = es.length := keyEntities_length es kes hkes
  · rw [List.map_map]
    have hcongr : (keyOrderAux [] (kes.map (fun p => p.1))).map
        (identityKey ∘ fun k => mergeGroup ((kes.filter (fun p => decide (p.1 = k))).map (fun p => p.2))) =
        (keyOrderAux [] (kes.map (fun p => p.1))).map (fun k => (Except.ok k : Except Unit _)) := by
      apply List.map_congr_left
      intro k hk
      simp only [Function.comp_apply]
      cases hb : (kes.filter (fun p => decide (p.1 = k))).map (fun p => p.2) with
      | nil => exact absurd hb (bucket_ne_nil es kes hkes k hk)
      | cons g gs =>
        rw [mergeGroup_identityKey]
        have hmem : maxByConfidence g gs ∈
            (kes.filter (fun p => decide (p.1 = k))).map (fun p => p.2) := by
          rw [hb]
          exact maxByConfidence_mem gs g
        exact (bucket_key_and_mem es kes hkes k _ hmem).1
    rw [hcongr]
    have hinj : Function.Injective (fun k => (Except.ok k : Except Unit (String × String × String))) :=
      fun a b hab => by injection hab
    exact List.Nodup.map hinj (keyOrderAux_nodup _ _)

def soloRecord : NormalizedEntity := ⟨ "Thing", [], "jsonld", 1/2, [] ⟩

/-- Witness for C3 at a concrete one-element batch. -/
theorem c3_merge_size_and_distinct_keys_witness :
    ([⟨ "Thing", [], "jsonld", 1/2, [] ⟩] : List NormalizedEntity).length ≤ [soloRecord].length ∧
    (([⟨ "Thing", [], "jsonld", 1/2, [] ⟩] : List NormalizedEntity).map identityKey).Nodup :=
  c3_merge_size_and_distinct_keys [soloRecord] _ rfl

/-! ## Claim C5: amended invariants -/

/-- Claim C5 (amended): starting from a confidence in [0,1], enrichment and
merge keep it in [0,1]; a merge step never decreases the surviving
confidence; an enrichment step never decreases confidence by more than the
0.005 that rounding to two decimals can remove. -/
theorem c5_confidence_invariants :
    (∀ (e : NormalizedEntity) (sc : Int), 0 ≤ e.confidence → e.confidence ≤ 1 →
      0 ≤ (enrich_confidence e sc).confidence ∧
      (enrich_confidence e sc).confidence ≤ 1 ∧
      e.confidence - 1/200 ≤ (enrich_confidence e sc).confidence) ∧
    (∀ (g : NormalizedEntity) (gs : List NormalizedEntity),
      (∀ x ∈ g :: gs, x.confidence ≤ 1) →
      (maxByConfidence g gs).confidence ≤ (mergeGroup (g :: gs)).confidence) ∧
    (∀ (es out : List NormalizedEntity),
      (∀ x ∈ es, 0 ≤ x.confidence ∧ x.confidence ≤ 1) →
      merge_entities es = .ok out →
      ∀ m ∈ out, 0 ≤ m.confidence ∧ m.confidence ≤ 1) := by
  refine ⟨?_, ?_, ?_⟩
  · intro e sc h0 h1
    have heq := enrich_confidence_confidence e sc
    have b1 : 0 ≤ nameBoost e := by unfold nameBoost; split_ifs <;> norm_num
    have b2 : 0 ≤ urlBoost e := by unfold urlBoost; split_ifs <;> norm_num
    have b3 : 0 ≤ sameAsBoost e := by unfold sameAsBoost; split_ifs <;> norm_num
    have b4 : 0 ≤ logoBoost e := by unfold logoBoost; split_ifs <;> norm_num
    have b5 : 0 ≤ countBoost sc := by unfold countBoost; split_ifs <;> norm_num
    have hS : e.confidence ≤ e.confidence + nameBoost e + urlBoost e + sameAsBoost e
        + logoBoost e + countBoost sc := by linarith
    have hmin2 : e.confidence ≤ min (e.confidence + nameBoost e + urlBoost e + sameAsBoost e
        + logoBoost e + countBoost sc) 1 := le_min hS h1
    have hmin0 : 0 ≤ min (e.confidence + nameBoost e + urlBoost e + sameAsBoost e
        + logoBoost e + countBoost sc) 1 := le_trans h0 hmin2
    rw [heq]
    refine ⟨pyRound2_nonneg _ hmin0, pyRound2_le_one _ (min_le_right _ _), ?_⟩
    exact le_trans (by linarith) (pyRound2_ge _)
  · intro g gs hb
    rw [mergeGroup_confidence]
    split_ifs with h
    · have hp : (maxByConfidence g gs).confidence ≤ 1 := hb _ (maxByConfidence_mem gs g)
      exact le_min (by linarith) hp
    · exact le_refl _
  · intro es out hb h m hm
    obtain ⟨kes, hkes, rfl⟩ := merge_entities_ok es out h
    obtain ⟨k, hk, rfl⟩ := List.mem_map.1 hm
    cases hbkt : (kes.filter (fun p => decide (p.1 = k))).map (fun p => p.2) with
    | nil => exact absurd hbkt (bucket_ne_nil es kes hkes k hk)
    | cons g gs =>
      have hmembers : ∀ x ∈ g :: gs, 0 ≤ x.confidence ∧ x.confidence ≤ 1 := by
        intro x hx
        have hxb : x ∈ (kes.filter (fun p => decide (p.1 = k))).map (fun p => p.2) := by
          rw [hbkt]; exact hx
        exact hb x (bucket_key_and_mem es kes hkes k x hxb).2
      have hp := hmembers _ (maxByConfidence_mem gs g)
      rw [mergeGroup_confidence]
      split_ifs with hlen
      · constructor
        · exact le_min (by linarith [hp.1]) (by norm_num)
        · exact min_le_right _ _
      · exact hp

/-- Witness for C5 at a concrete entity of confidence 0.874. -/
theorem c5_confidence_invariants_witness :
    0 ≤ (enrich_confidence midEntity 1).confidence ∧
    (enrich_confidence midEntity 1).confidence ≤ 1 ∧
    midEntity.confidence - 1/200 ≤ (enrich_confidence midEntity 1).confidence :=
  c5_confidence_invariants.1 midEntity 1 (by norm_num [midEntity]) (by norm_num [midEntity])

/-! ## Claim C6 -/

/-- The condition semantics in the words of the specification: a
missing_schema condition holds iff no present type subclass-matches the
named schema, a signal condition holds iff the nested signal value equals
the expected value exactly, and any other condition key never holds. -/
def condHolds (graph : SchemaGraph) (present_types : List String)
    (signals : List (String × SigVal)) (cond : String × Value) : Prop :=
  if cond.1 = "missing_schema" then
    ¬ ∃ t ∈ present_types, subclassMatchV graph t cond.2 = true
  else if cond.1.startsWith "signal." then
    sigValueEq (get_signal_value signals cond.1) cond.2 = true
  else False

lemma ruleMatchesLoop_iff (graph : SchemaGraph) (pt : List String)
    (signals : List (String × SigVal)) :
    ∀ conds, ruleMatchesLoop graph pt signals conds = true ↔
      ∀ c ∈ conds, condHolds graph pt signals c := by
  intro conds
  induction conds with
  | nil => simp [ruleMatchesLoop]
  | cons c rest ih =>
    obtain ⟨key, expected⟩ := c
    rw [List.forall_mem_cons]
    by_cases h1 : key = "missing_schema"
    · subst h1
      have hch : condHolds graph pt signals ("missing_schema", expected) ↔
          ¬ ∃ t ∈ pt, subclassMatchV graph t expected = true := Iff.rfl
      rw [hch]
      by_cases h2 : pt.any (fun t => subclassMatchV graph t expected) = true
      · have hex : ∃ t ∈ pt, subclassMatchV graph t expected = true := by
          simpa using h2
        have hL : ruleMatchesLoop graph pt signals (("missing_schema", expected) :: rest) =
            false := by
          simp [ruleMatchesLoop, h2]
        constructor
        · intro hT
          rw [hL] at hT
          exact absurd hT (by simp)
        · rintro ⟨hn, _⟩
          exact absurd hex hn
      · have hne : ¬ ∃ t ∈ pt, subclassMatchV graph t expected = true := by
          simpa using h2
        have hL : ruleMatchesLoop graph pt signals (("missing_schema", expected) :: rest) =
            ruleMatchesLoop graph pt signals rest := by
          simp [ruleMatchesLoop, h2]
        rw [hL, ih]
        exact ⟨fun ha => ⟨hne, ha⟩, fun hb => hb.2⟩
    · by_cases h3 : key.startsWith "signal." = true
      · have hch : condHolds graph pt signals (key, expected) ↔
            sigValueEq (get_signal_value signals key) expected = true := by
          simp [condHolds, h1, h3]
        rw [hch]
        by_cases h4 : sigValueEq (get_signal_value signals key) expected = true
        · have hL : ruleMatchesLoop graph pt signals ((key, expected) :: rest) =
              ruleMatchesLoop graph pt signals rest := by
            simp [ruleMatchesLoop, h1, h3, h4]
          rw [hL, ih]
          exact ⟨fun ha => ⟨h4, ha⟩, fun hb => hb.2⟩
        · have hL : ruleMatchesLoop graph pt signals ((key, expected) :: rest) = false := by
            simp [ruleMatchesLoop, h1, h3, h4]
          constructor
          · intro hT
            rw [hL] at hT
            exact absurd hT (by simp)
          · rintro ⟨hs, _⟩
            exact absurd hs h4
      · have hch : condHolds graph pt signals (key, expected) ↔ False := by
          simp [condHolds, h1, h3]
        have hL : ruleMatchesLoop graph pt signals ((key, expected) :: rest) = false := by
          simp [ruleMatchesLoop, h1, h3]
        rw [hch]
        constructor
        · intro hT
          rw [hL] at hT
          exact absurd hT (by simp)
        · rintro ⟨hf, _⟩
          exact hf.elim

/-- Claim C6: a rule matches iff every condition of its when mapping holds —
missing_schema fails iff some present type subclass-matches the named
schema, signal.path fails iff the nested signal value is not exactly the
expected value, any other key fails unconditionally; in particular the
missing_schema Organization rule fires exactly when no present type
subclass-matches Organization. -/
theorem c6_rule_matching_semantics (graph : SchemaGraph) (rule : Rule)
    (pt : List String) (signals : List (String × SigVal)) :
    (ruleMatches graph rule pt signals = true ↔
      ∀ c ∈ rule.when, condHolds graph pt signals c) ∧
    (∀ sug conf cat reason,
      ruleMatches graph ⟨ [("missing_schema", .str "Organization")], sug, conf, cat, reason ⟩
          pt signals = true ↔
        ¬ ∃ t ∈ pt, is_subclass graph t "Organization" = true) := by
  constructor
  · exact ruleMatchesLoop_iff graph pt signals rule.when
  · intro sug conf cat reason
    have h := ruleMatchesLoop_iff graph pt signals [("missing_schema", Value.str "Organization")]
    unfold ruleMatches
    rw [h]
    simp [condHolds, subclassMatchV]

/-- Witness for C6: the Organization rule fires on an empty page. -/
theorem c6_rule_matching_semantics_witness :
    ruleMatches [] ⟨ [("missing_schema", .str "Organization")], "Organization", "high",
        "General", "demo" ⟩ [] [] = true ↔
      ¬ ∃ t ∈ ([] : List String), is_subclass [] t "Organization" = true :=
  (c6_rule_matching_semantics [] ⟨ [], "", "", "", "" ⟩ [] []).2 "Organization" "high"
    "General" "demo"

/-! ## Claim C7 -/

/-- Claim C7: isSatisfied is true iff the satisfaction table has an entry
for the schema and one of its alternative sets is fully covered, every
member having a subclass-match among present types; with the FAQPage entry
any_of [{Question, Answer}], present types {FAQPage} do not satisfy FAQPage
(when Question is not a declared direct subclass of FAQPage), and adding
both Question and Answer satisfies it. -/
theorem c7_satisfaction_semantics (graph : SchemaGraph) :
    (∀ target pt, isSchemaSatisfied graph target pt = true ↔
      ∃ any_of,
        (SCHEMA_SATISFACTION_RULES.find? (fun p => decide (p.1 = target))).map (fun p => p.2) =
          some any_of ∧
        ∃ req ∈ any_of, ∀ r ∈ req, ∃ t ∈ pt, is_subclass graph t r = true) ∧
    ("Question" ∉ childrenOf graph "FAQPage" →
      isSchemaSatisfied graph "FAQPage" ["FAQPage"] = false) ∧
    (∀ pt, "Question" ∈ pt → "Answer" ∈ pt →
      isSchemaSatisfied graph "FAQPage" pt = true) := by
  refine ⟨?_, ?_, ?_⟩
  · intro target pt
    unfold isSchemaSatisfied
    cases hf : (SCHEMA_SATISFACTION_RULES.find? (fun p => decide (p.1 = target))).map
        (fun p => p.2) with
    | none => simp
    | some any_of => simp [List.any_eq_true, List.all_eq_true]
  · intro h
    have hq : is_subclass graph "FAQPage" "Question" = false := by
      simp only [is_subclass, resolve_types, decide_eq_false_iff_not, List.mem_cons]
      rintro (h1 | h2)
      · exact absurd h1 (by decide)
      · exact h h2
    have hf : (SCHEMA_SATISFACTION_RULES.find? (fun p => decide (p.1 = "FAQPage"))).map
        (fun p => p.2) = some [["Question", "Answer"]] := rfl
    unfold isSchemaSatisfied
    rw [hf]
    simp [hq]
  · intro pt hq ha
    have h1 : is_subclass graph "Question" "Question" = true := by
      simp [is_subclass, resolve_types]
    have h2 : is_subclass graph "Answer" "Answer" = true := by
      simp [is_subclass, resolve_types]
    have hf : (SCHEMA_SATISFACTION_RULES.find? (fun p => decide (p.1 = "FAQPage"))).map
        (fun p => p.2) = some [["Question", "Answer"]] := rfl
    unfold isSchemaSatisfied
    rw [hf]
    simp only [List.any_eq_true, List.all_eq_true]
    refine ⟨["Question", "Answer"], by simp, ?_⟩
    intro r hr
    rcases List.mem_cons.1 hr with rfl | hr2
    · exact ⟨"Question", hq, h1⟩
    · rcases List.mem_cons.1 hr2 with rfl | hr3
      · exact ⟨"Answer", ha, h2⟩
      · simp at hr3

/-- Witness for C7: the FAQPage entry with the empty graph. -/
theorem c7_satisfaction_semantics_witness :
    isSchemaSatisfied [] "FAQPage" ["FAQPage"] = false :=
  (c7_satisfaction_semantics []).2.1 (by simp [childrenOf])

/-! ## Claim C9 -/

def orgA : NormalizedEntity := ⟨ "Organization", [("name", .str "Alpha")], "rdfa", 5/10, [] ⟩

def orgB : NormalizedEntity := ⟨ "Organization", [("name", .str "Beta")], "jsonld", 9/10, [] ⟩

/-- Claim C9: resolve filters to entities whose type subclass-matches
Organization, returns none when there is no candidate (in particular on the
empty list), and otherwise projects a maximum-confidence candidate as type,
properties, confidence and source; resolving [orgA(0.5), orgB(0.9)]
returns orgB. -/
theorem c9_resolve_organization_best (graph : SchemaGraph) (url : Option String) :
    resolve_organization graph [] url = none ∧
    (∀ es : List NormalizedEntity,
      es.filter (fun e => is_subclass graph e.type "Organization") = [] →
      resolve_organization graph es url = none) ∧
    (∀ (es : List NormalizedEntity) (c : NormalizedEntity) (cs : List NormalizedEntity),
      es.filter (fun e => is_subclass graph e.type "Organization") = c :: cs →
      ∃ best ∈ c :: cs,
        resolve_organization graph es url =
          some ⟨ best.type, best.properties, best.confidence, best.source ⟩ ∧
        ∀ e ∈ c :: cs, e.confidence ≤ best.confidence) ∧
    resolve_organization graph [orgA, orgB] url =
      some ⟨ "Organization", [("name", .str "Beta")], 9/10, "jsonld" ⟩ := by
  refine ⟨rfl, ?_, ?_, ?_⟩
  · intro es hfil
    unfold resolve_organization
    rw [hfil]
  · intro es c cs hfil
    refine ⟨maxByConfidence c cs, maxByConfidence_mem cs c, ?_, maxByConfidence_ge cs c⟩
    unfold resolve_organization
    rw [hfil]
  · have hsub : is_subclass graph "Organization" "Organization" = true := by
      simp [is_subclass, resolve_types]
    have hfil : [orgA, orgB].filter (fun e => is_subclass graph e.type "Organization") =
        [orgA, orgB] := by
      simp [List.filter, orgA, orgB, hsub]
    have hgt : orgB.confidence > orgA.confidence := by norm_num [orgA, orgB]
    have hmax : maxByConfidence orgA [orgB] = orgB := by
      simp [maxByConfidence, hgt]
    unfold resolve_organization
    rw [hfil]
    simp only [hmax]
    simp [orgB]

/-- Witness for C9 at a concrete candidate list over the empty graph. -/
theorem c9_resolve_organization_best_witness :
    ∃ best ∈ [orgA, orgB],
      resolve_organization [] [orgA, orgB] none =
        some ⟨ best.type, best.properties, best.confidence, best.source ⟩ ∧
      ∀ e ∈ [orgA, orgB], e.confidence ≤ best.confidence :=
  (c9_resolve_organization_best [] none).2.2.1 [orgA, orgB] orgA [orgB] rfl

/-! ## Claim C10 -/

/-- Claim C10: a rule with an empty (or absent) when mapping matches
unconditionally for every set of present types and every signals bag, and
the Layer-1 loop then emits its suggested schema unless the coverage check,
the satisfaction check, the Review guard, or the already-emitted check
removes it. -/
theorem c10_empty_when_rule :
    (∀ (graph : SchemaGraph) (rule : Rule) (pt : List String)
        (signals : List (String × SigVal)),
      rule.when = [] → ruleMatches graph rule pt signals = true) ∧
    (∀ (graph : SchemaGraph) (pt : List String) (signals : List (String × SigVal))
        (sugg : List Suggestion) (sugd : List String) (rule : Rule),
      rule.when = [] →
      ((pt.any (fun t => is_subclass graph t rule.suggest) = false ∧
        isSchemaSatisfied graph rule.suggest pt = false ∧
        (decide (rule.suggest = "Review") &&
          !(pt.any (fun t => is_subclass graph t "Product"))) = false ∧
        sugd.contains rule.suggest = false →
          layer1Step graph pt signals (sugg, sugd) rule =
            (sugg ++ [suggestionOfRule rule], sugd ++ [rule.suggest])) ∧
       (pt.any (fun t => is_subclass graph t rule.suggest) = true ∨
        isSchemaSatisfied graph rule.suggest pt = true ∨
        (decide (rule.suggest = "Review") &&
          !(pt.any (fun t => is_subclass graph t "Product"))) = true ∨
        sugd.contains rule.suggest = true →
          layer1Step graph pt signals (sugg, sugd) rule = (sugg, sugd)))) := by
  have hmatch : ∀ (graph : SchemaGraph) (rule : Rule) (pt : List String)
      (signals : List (String × SigVal)),
      rule.when = [] → ruleMatches graph rule pt signals = true := by
    intro graph rule pt signals hwhen
    unfold ruleMatches
    rw [hwhen]
    rfl
  refine ⟨hmatch, ?_⟩
  intro graph pt signals sugg sugd rule hwhen
  have hm := hmatch graph rule pt signals hwhen
  constructor
  · rintro ⟨h1, h2, h3, h4⟩
    have h4m : rule.suggest ∉ sugd := by simpa using h4
    simp [layer1Step, hm, h1, h2, h3, h4m]
  · intro hdisj
    by_cases hc1 : pt.any (fun t => is_subclass graph t rule.suggest) = true
    · simp [layer1Step, hm, hc1]
    · by_cases hc2 : isSchemaSatisfied graph rule.suggest pt = true
      · simp [layer1Step, hm, hc1, hc2]
      · by_cases hc3 : (decide (rule.suggest = "Review") &&
            !(pt.any (fun t => is_subclass graph t "Product"))) = true
        · simp [layer1Step, hm, hc1, hc2, hc3]
        · by_cases hc4 : sugd.contains rule.suggest = true
          · have hc4m : rule.suggest ∈ sugd := by simpa using hc4
            simp [layer1Step, hm, hc1, hc2, hc3, hc4m]
          · exfalso
            rcases hdisj with h | h | h | h
            · exact hc1 h
            · exact hc2 h
            · exact hc3 h
            · exact hc4 h

def emptyWhenRule : Rule := ⟨ [], "Organization", "medium", "General", "demo" ⟩

/-- Witness for C10: an empty-when rule over an empty page emits its schema. -/
theorem c10_empty_when_rule_witness :
    layer1Step [] [] [] ([], []) emptyWhenRule =
      ([suggestionOfRule emptyWhenRule], ["Organization"]) :=
  (c10_empty_when_rule.2 [] [] [] [] [] emptyWhenRule rfl).1 ⟨rfl, rfl, rfl, rfl⟩

end EntityChecker
